import Mathlib

/-!
Verification of the field-level personal-data encryption subsystem of
`datacryptor_bot` (`core/encryption.py`), as a shallow embedding.

The repository code is translated directly:

* `DataCategory`, `ENCRYPTED_FIELDS`, `_map_field_to_category`,
  `encrypt_field`, `decrypt_field`, `auto_encrypt_user_data`,
  `auto_decrypt_user_data`, `_derive_keys` and `__init__` of
  `PersonalDataEncryptor` become Lean definitions below, byte strings
  becoming `List Nat` and Python byte-slices becoming `pySlice` with
  Python's clamping semantics.

* The external library primitives the code calls (PBKDF2 and HMAC from
  `cryptography.hazmat.primitives`, AES-GCM, `json.dumps`/`json.loads`
  specialised to the fixed data-package schema, and
  `base64.urlsafe_b64encode`/`b64decode`) are not part of this
  repository; they are abstracted as the fields of a `Prims` record,
  and each theorem assumes exactly the contracts of those primitives
  that it needs (stated as hypotheses, discharged on an executable
  instance in the witnesses).

* `decrypt_field` is embedded together with an explicit step trace
  (`DecryptTrace`) recording whether the HMAC recomputation and the
  AEAD decryption were reached, so that ordering properties
  ("verify before decrypt") are statable.
-/

/-- `class DataCategory(Enum)` from `core/encryption.py`. -/
inductive DataCategory where
  | PASSPORT
  | FIO
  | ADDRESS
  | PHONE
  | VZH
  | PATENT
  | DOCUMENT_PHOTO
  | OTHER
deriving DecidableEq, Repr

/-- The `.value` of each `DataCategory` member. -/
def categoryValue : DataCategory → String
  | .PASSPORT => "passport"
  | DataCategory.FIO => "fio"
  | .ADDRESS => "address"
  | .PHONE => "phone"
  | .VZH => "vzh"
  | .PATENT => "patent"
  | .DOCUMENT_PHOTO => "document_photo"
  | .OTHER => "other"

/-- The `DataCategory(value)` enum constructor: `none` models the
`ValueError` Python raises on an unknown value. -/
def categoryOfString (s : String) : Option DataCategory :=
  if s = "passport" then some .PASSPORT
  else if s = "fio" then some DataCategory.FIO
  else if s = "address" then some .ADDRESS
  else if s = "phone" then some .PHONE
  else if s = "vzh" then some .VZH
  else if s = "patent" then some .PATENT
  else if s = "document_photo" then some .DOCUMENT_PHOTO
  else if s = "other" then some .OTHER
  else none

/-- The metadata dictionary built by `_create_metadata`. -/
structure Metadata where
  category : String
  encrypted_at : String
  key_version : String
  compliance : String
deriving DecidableEq, Repr

/-- The JSON object fed to AES-GCM: `{'metadata': ..., 'data': ...}`.
Both fields are `Option` so that a parsed JSON object missing either
key (`data_package.get('metadata', {})`, `data_package['data']`) is
representable. -/
structure DataPackage where
  metadata : Option Metadata
  data : Option String
deriving DecidableEq, Repr

/-- The `ValueError` raised by `PersonalDataEncryptor.__init__` on a bad
master-key length (the spec's `ConfigurationError`). -/
inductive ConfigErr where
  | configurationError
deriving DecidableEq, Repr

/-- `class EncryptionError(Exception)`. -/
inductive EncErr where
  | encryptionError
deriving DecidableEq, Repr

/-- `class SecurityError(Exception)` and `class DecryptionError(Exception)`:
the two exception kinds `decrypt_field` can raise. -/
inductive DecErr where
  | securityError
  | decryptionError
deriving DecidableEq, Repr

/-- The external library primitives used by `core/encryption.py`
(`cryptography`, `json`, `base64`); they are not part of this
repository and are abstracted as pure functions. -/
structure Prims where
  /-- `PBKDF2HMAC(SHA256, length, salt, iterations).derive(password)` -/
  pbkdf2 : List Nat → List Nat → Nat → Nat → List Nat
  /-- `hmac.HMAC(key, SHA256)` over a message, finalized -/
  hmacSHA256 : List Nat → List Nat → List Nat
  /-- AES-GCM encryption: key, iv, plaintext ↦ (ciphertext, tag);
  `none` models a library exception -/
  gcmEncrypt : List Nat → List Nat → List Nat → Option (List Nat × List Nat)
  /-- AES-GCM decryption with tag verification: key, iv, ciphertext,
  tag ↦ plaintext; `none` models `InvalidTag` -/
  gcmDecrypt : List Nat → List Nat → List Nat → List Nat → Option (List Nat)
  /-- `json.dumps({'metadata': ..., 'data': ...}, ensure_ascii=False).encode('utf-8')` -/
  jsonDumps : Metadata → String → List Nat
  /-- `json.loads` of the decrypted bytes, against the package schema;
  `none` models a parse failure -/
  jsonLoads : List Nat → Option DataPackage
  /-- `base64.urlsafe_b64encode(..).decode('utf-8')` -/
  b64encode : List Nat → String
  /-- `base64.urlsafe_b64decode`; `none` models `binascii.Error` -/
  b64decode : String → Option (List Nat)

/-- UTF-8 encoding of one character (`str.encode('utf-8')`, per char). -/
def utf8Char (c : Char) : List Nat :=
  let n := c.toNat
  if n < 0x80 then [n]
  else if n < 0x800 then [0xC0 + n / 64, 0x80 + n % 64]
  else if n < 0x10000 then
    [0xE0 + n / 4096, 0x80 + (n / 64) % 64, 0x80 + n % 64]
  else
    [0xF0 + n / 262144, 0x80 + (n / 4096) % 64, 0x80 + (n / 64) % 64,
     0x80 + n % 64]

/-- `str.encode('utf-8')` as a byte list. -/
def utf8Str (s : String) : List Nat :=
  (s.data.map utf8Char).flatten

/-- The state a constructed `PersonalDataEncryptor` carries: the
UTF-8-encoded master key and the two derived keys. -/
structure Encryptor where
  master_key : List Nat
  encryption_key : List Nat
  auth_key : List Nat
deriving DecidableEq, Repr

/-- `_derive_keys`: PBKDF2-HMAC-SHA256, 100000 iterations, 32-byte
output, fixed salts `b'encryption_salt'` / `b'authentication_salt'`,
returning (encryption_key, auth_key). -/
def derive_keys (P : Prims) (master_key : List Nat) : List Nat × List Nat :=
  (P.pbkdf2 master_key (utf8Str "encryption_salt") 100000 32,
   P.pbkdf2 master_key (utf8Str "authentication_salt") 100000 32)

/-- `PersonalDataEncryptor.__init__`: rejects a master key whose
string length is not 32 (`len(master_key) != 32`), then stores
`master_key.encode('utf-8')` and the derived keys. -/
def mkEncryptor (P : Prims) (master_key : String) : Except ConfigErr Encryptor :=
  if master_key.length ≠ 32 then .error .configurationError
  else
    let mk := utf8Str master_key
    let keys := derive_keys P mk
    .ok ⟨mk, keys.1, keys.2⟩

/-- Clamp a Python slice index to `[0, n]` (negative indices count from
the end, as in CPython). -/
def pyIdx (n : Nat) (i : Int) : Nat :=
  min n (Int.toNat (if i < 0 then (n : Int) + i else i))

/-- Python slice `l[a:b]`. -/
def pySlice (l : List α) (a b : Int) : List α :=
  (l.take (pyIdx l.length b)).drop (pyIdx l.length a)

/-- Python slice `l[:b]`. -/
def pySliceTo (l : List α) (b : Int) : List α :=
  l.take (pyIdx l.length b)

/-- Python slice `l[a:]`. -/
def pySliceFrom (l : List α) (a : Int) : List α :=
  l.drop (pyIdx l.length a)

/-- `_create_metadata(data_category)`; the wall-clock timestamp and the
rotation-derived key version are environment inputs and appear as
parameters. -/
def create_metadata (data_category : DataCategory)
    (encrypted_at key_version : String) : Metadata :=
  ⟨categoryValue data_category, encrypted_at, key_version, "152-FZ"⟩

/-- `PersonalDataEncryptor.encrypt_field`.  The fresh 12-byte IV drawn
by `os.urandom(12)` and the timestamp / key version stamped into the
metadata are parameters.  A library failure inside the `try` block
(modelled by `gcmEncrypt` returning `none`) is caught and re-raised as
`EncryptionError`. -/
def encrypt_field (P : Prims) (e : Encryptor) (iv : List Nat)
    (encrypted_at key_version : String)
    (plain_text : String) (data_category : DataCategory) :
    Except EncErr String :=
  if plain_text = "" then .ok ""
  else
    let metadata := create_metadata data_category encrypted_at key_version
    let json_data := P.jsonDumps metadata plain_text
    match P.gcmEncrypt e.encryption_key iv json_data with
    | none => .error .encryptionError
    | some (encrypted_data, auth_tag) =>
      let hmac_digest := P.hmacSHA256 e.auth_key (iv ++ encrypted_data ++ auth_tag)
      let combined := iv ++ encrypted_data ++ auth_tag ++ hmac_digest
      .ok (P.b64encode combined)

/-- The four components `decrypt_field` slices out of the decoded
bytes: `iv = combined[:12]`, `encrypted_data = combined[12:-48]`,
`auth_tag = combined[-48:-32]`, `hmac_digest = combined[-32:]`. -/
def dfParts (combined : List Nat) :
    List Nat × List Nat × List Nat × List Nat :=
  (pySliceTo combined 12,
   pySlice combined 12 (-48),
   pySlice combined (-48) (-32),
   pySliceFrom combined (-32))

/-- Which processing steps a `decrypt_field` call reached. -/
structure DecryptTrace where
  hmacComputed : Bool
  aeadAttempted : Bool
deriving DecidableEq, Repr

/-- The body of `decrypt_field` after the base64 decode succeeded:
HMAC check first (`InvalidSignature` ↦ `securityError`), then the
`modes.GCM` minimum-tag-length `ValueError` of the library (tag
shorter than 16 bytes, caught by the generic handler ↦
`decryptionError`), then AEAD decryption (`InvalidTag` ↦
`securityError`), then JSON / enum / key errors ↦
`decryptionError`. -/
def dfBody (P : Prims) (e : Encryptor) (combined : List Nat) :
    Except DecErr (String × DataCategory) × DecryptTrace :=
  let parts := dfParts combined
  let iv := parts.1
  let encrypted_data := parts.2.1
  let auth_tag := parts.2.2.1
  let hmac_digest := parts.2.2.2
  let recomputed := P.hmacSHA256 e.auth_key (iv ++ encrypted_data ++ auth_tag)
  if recomputed ≠ hmac_digest then (.error .securityError, ⟨true, false⟩)
  else if auth_tag.length < 16 then (.error .decryptionError, ⟨true, false⟩)
  else
    match P.gcmDecrypt e.encryption_key iv encrypted_data auth_tag with
    | none => (.error .securityError, ⟨true, true⟩)
    | some decrypted_json =>
      match P.jsonLoads decrypted_json with
      | none => (.error .decryptionError, ⟨true, true⟩)
      | some data_package =>
        let category_string :=
          match data_package.metadata with
          | some md => md.category
          | none => "other"
        match categoryOfString category_string with
        | none => (.error .decryptionError, ⟨true, true⟩)
        | some data_category =>
          match data_package.data with
          | none => (.error .decryptionError, ⟨true, true⟩)
          | some d => (.ok (d, data_category), ⟨true, true⟩)

/-- `PersonalDataEncryptor.decrypt_field`, instrumented with a
`DecryptTrace`: empty-input short-circuit, base64 decode
(`binascii.Error` ↦ `decryptionError`), then `dfBody`. -/
def decrypt_field_aux (P : Prims) (e : Encryptor) (encrypted_text : String) :
    Except DecErr (String × DataCategory) × DecryptTrace :=
  if encrypted_text = "" then (.ok ("", DataCategory.OTHER), ⟨false, false⟩)
  else
    match P.b64decode encrypted_text with
    | none => (.error .decryptionError, ⟨false, false⟩)
    | some combined => dfBody P e combined

/-- `PersonalDataEncryptor.decrypt_field` (result only). -/
def decrypt_field (P : Prims) (e : Encryptor) (encrypted_text : String) :
    Except DecErr (String × DataCategory) :=
  (decrypt_field_aux P e encrypted_text).1

/-- A Python value as it occurs in a user-data dictionary. -/
inductive PyVal where
  | str (s : String)
  | bool (b : Bool)
  | int (n : Int)
  | none
deriving DecidableEq, Repr

/-- Python truthiness of a `PyVal` (`if ... and value`). -/
def pyTruthy : PyVal → Bool
  | .str s => s ≠ ""
  | .bool b => b
  | .int n => n ≠ 0
  | .none => false

/-- Python `str(value)`. -/
def pyStr : PyVal → String
  | .str s => s
  | .bool b => if b then "True" else "False"
  | .int n => toString n
  | .none => "None"

/-- `PersonalDataEncryptor.ENCRYPTED_FIELDS`. -/
def ENCRYPTED_FIELDS : List String :=
  ["fio", "passport_series", "passport_number", "passport_issue_date",
   "passport_issued_by", "address", "phone", "vzh_number", "patent_number",
   "document_scan_path", "email", "snils", "inn"]

/-- `PersonalDataEncryptor._map_field_to_category`. -/
def map_field_to_category (field : String) : DataCategory :=
  if field = "fio" then DataCategory.FIO
  else if field = "passport_series" then .PASSPORT
  else if field = "passport_number" then .PASSPORT
  else if field = "passport_issue_date" then .PASSPORT
  else if field = "passport_issued_by" then .PASSPORT
  else if field = "address" then .ADDRESS
  else if field = "phone" then .PHONE
  else if field = "vzh_number" then .VZH
  else if field = "patent_number" then .PATENT
  else if field = "document_scan_path" then .DOCUMENT_PHOTO
  else if field = "email" then .OTHER
  else if field = "snils" then .OTHER
  else if field = "inn" then .OTHER
  else .OTHER

/-- Python dict assignment `d[k] = v` on an association list with
unique keys: replaces the value in place if the key exists (keeping
its position, as CPython dicts do), otherwise appends. -/
def dictSet (l : List (String × PyVal)) (k : String) (v : PyVal) :
    List (String × PyVal) :=
  match l with
  | [] => [(k, v)]
  | (k', v') :: rest =>
    if k' = k then (k, v) :: rest else (k', v') :: dictSet rest k v

/-- The `for field, value in user_data.items()` loop of
`auto_encrypt_user_data`; `k` indexes into the stream of fresh IVs
(one `os.urandom(12)` per encrypted field). -/
def autoEncLoop (P : Prims) (e : Encryptor) (ivs : Nat → List Nat)
    (encrypted_at key_version : String) :
    List (String × PyVal) → Nat → Except EncErr (List (String × PyVal))
  | [], _ => .ok []
  | (field, value) :: rest, k =>
    if field ∈ ENCRYPTED_FIELDS ∧ pyTruthy value then
      match encrypt_field P e (ivs k) encrypted_at key_version
          (pyStr value) (map_field_to_category field) with
      | .error err => .error err
      | .ok env =>
        match autoEncLoop P e ivs encrypted_at key_version rest (k + 1) with
        | .error err => .error err
        | .ok l => .ok ((field, .str env) :: l)
    else
      match autoEncLoop P e ivs encrypted_at key_version rest k with
      | .error err => .error err
      | .ok l => .ok ((field, value) :: l)

/-- `PersonalDataEncryptor.auto_encrypt_user_data`: encrypt every
truthy sensitive field (propagating `EncryptionError`), then stamp
`_encrypted`, `_encryption_version` and `_encrypted_at`. -/
def auto_encrypt_user_data (P : Prims) (e : Encryptor) (ivs : Nat → List Nat)
    (encrypted_at key_version : String) (user_data : List (String × PyVal)) :
    Except EncErr (List (String × PyVal)) :=
  match autoEncLoop P e ivs encrypted_at key_version user_data 0 with
  | .error err => .error err
  | .ok encrypted_data =>
    .ok (dictSet (dictSet (dictSet encrypted_data
          "_encrypted" (.bool true))
          "_encryption_version" (.str key_version))
          "_encrypted_at" (.str encrypted_at))

/-- The per-entry transform of `auto_decrypt_user_data`:
`if field in self.ENCRYPTED_FIELDS and value and isinstance(value, str)`
then decrypt, substituting the sentinel on `DecryptionError` /
`SecurityError`; otherwise the value passes through unchanged. -/
def decryptValueOf (P : Prims) (e : Encryptor) (field : String)
    (value : PyVal) : PyVal :=
  match value with
  | PyVal.str s =>
    if field ∈ ENCRYPTED_FIELDS ∧ s ≠ "" then
      match decrypt_field P e s with
      | .ok (decrypted_value, _category) => PyVal.str decrypted_value
      | .error _ => PyVal.str "[DECRYPTION_ERROR]"
    else PyVal.str s
  | v => v

/-- `PersonalDataEncryptor.auto_decrypt_user_data`. -/
def auto_decrypt_user_data (P : Prims) (e : Encryptor)
    (encrypted_data : List (String × PyVal)) : List (String × PyVal) :=
  encrypted_data.map (fun fv => (fv.1, decryptValueOf P e fv.1 fv.2))

/-!
An executable instance of the external primitives.  It is used by the
witnesses to show that the primitive contracts assumed by the theorems
are satisfiable; it is not a model of the real algorithms, only of the
contracts (lengths, determinism, round-trips, and sensitivity of the
MAC to single-byte modification).
-/

/-- Codepoints of a string (an injective, invertible byte encoding used
by the toy primitives). -/
def strBytes (s : String) : List Nat :=
  s.data.map Char.toNat

/-- Inverse of `strBytes` on valid codepoints. -/
def strOfBytes (l : List Nat) : String :=
  String.mk (l.map Char.ofNat)

/-- Length-prefix a chunk. -/
def lenPrefixed (l : List Nat) : List Nat :=
  l.length :: l

/-- Read one length-prefixed chunk. -/
def readChunk (l : List Nat) : Option (List Nat × List Nat) :=
  match l with
  | [] => Option.none
  | n :: rest =>
    if n ≤ rest.length then some (rest.take n, rest.drop n) else Option.none

/-- Toy keyed MAC: 32 entries, the first of which is the sum of key and
message entries, the second the message length.  Any single-entry
modification of a message changes the first entry. -/
def toyMac (key msg : List Nat) : List Nat :=
  (key.sum + msg.sum) :: msg.length :: List.replicate 30 0

/-- Toy AEAD tag: 16 entries determined by key, iv and plaintext. -/
def toyTag (key iv msg : List Nat) : List Nat :=
  (key.sum + iv.sum + msg.sum) :: msg.length :: List.replicate 14 0

/-- The executable instance of `Prims` used by the witnesses. -/
def toyPrims : Prims where
  pbkdf2 := fun pw salt iterations length =>
    (List.range length).map (fun i => pw.sum + salt.sum + iterations + i)
  hmacSHA256 := toyMac
  gcmEncrypt := fun key iv msg =>
    if iv.length = 12 then some (msg, toyTag key iv msg) else Option.none
  gcmDecrypt := fun key iv ct tag =>
    if tag = toyTag key iv ct then some ct else Option.none
  jsonDumps := fun md s =>
    lenPrefixed (strBytes md.category) ++ lenPrefixed (strBytes md.encrypted_at)
      ++ lenPrefixed (strBytes md.key_version)
      ++ lenPrefixed (strBytes md.compliance) ++ lenPrefixed (strBytes s)
  jsonLoads := fun l =>
    match readChunk l with
    | Option.none => Option.none
    | some (c, r1) =>
      match readChunk r1 with
      | Option.none => Option.none
      | some (ea, r2) =>
        match readChunk r2 with
        | Option.none => Option.none
        | some (kv, r3) =>
          match readChunk r3 with
          | Option.none => Option.none
          | some (co, r4) =>
            match readChunk r4 with
            | Option.none => Option.none
            | some (d, r5) =>
              if r5 = [] then
                some ⟨some ⟨strOfBytes c, strOfBytes ea, strOfBytes kv,
                  strOfBytes co⟩, some (strOfBytes d)⟩
              else Option.none
  b64encode := strOfBytes
  b64decode := fun s => some (strBytes s)

/-- A concrete encryptor state for the witnesses. -/
def e₀ : Encryptor :=
  ⟨List.replicate 32 7, [1, 2, 3], [4, 5]⟩

/-- A concrete IV stream for the witnesses. -/
def ivs₀ : Nat → List Nat := fun _ => List.range 12

/-- A primitives instance whose AEAD encryption always fails, modelling
a cipher-library failure inside `encrypt_field`'s `try` block. -/
def failPrims : Prims :=
  { toyPrims with gcmEncrypt := fun _ _ _ => Option.none }

/-- The final package assembled by `encrypt_field` (line
`combined = iv + encrypted_data + auth_tag + hmac_digest`). -/
def combinedOf (P : Prims) (e : Encryptor) (iv ct tag : List Nat) : List Nat :=
  iv ++ ct ++ tag ++ P.hmacSHA256 e.auth_key (iv ++ ct ++ tag)

/-- Concrete ciphertext for the round-trip witness. -/
def ct₁ : List Nat :=
  toyPrims.jsonDumps (create_metadata DataCategory.FIO "2024" "v0") "hi"

/-- Concrete AEAD tag for the round-trip witness. -/
def tag₁ : List Nat :=
  toyTag e₀.encryption_key (List.range 12) ct₁

/-- `DataCategory(c.value)` recovers the member: the enum round-trip
used when decrypting an envelope produced by `encrypt_field`. -/
theorem categoryOfString_categoryValue (c : DataCategory) :
    categoryOfString (categoryValue c) = some c := by
  cases c <;> rfl

/-- C9: for every category `c`, `encrypt_field("", c)` returns the
empty string without producing an envelope or raising, and
`decrypt_field("")` returns `("", DataCategory.OTHER)` without
raising. -/
theorem c9_empty_field_short_circuit (P : Prims) (e : Encryptor)
    (iv : List Nat) (encrypted_at key_version : String) (c : DataCategory) :
    encrypt_field P e iv encrypted_at key_version "" c = .ok "" ∧
    decrypt_field P e "" = .ok ("", DataCategory.OTHER) :=
  ⟨rfl, rfl⟩

/-- C8: key derivation is deterministic — running `_derive_keys` twice
on the same master secret yields byte-identical keys, each key is the
32-byte output of PBKDF2-HMAC-SHA256 with 100000 iterations and the
fixed salts `"encryption_salt"` / `"authentication_salt"`, and no
randomness enters the derivation (it is a pure function of the master
secret). -/
theorem c8_key_derivation_deterministic (P : Prims) (mk mk' : List Nat)
    (hlen : ∀ pw salt iterations outLen,
      (P.pbkdf2 pw salt iterations outLen).length = outLen)
    (hsame : mk = mk') :
    derive_keys P mk = derive_keys P mk' ∧
    (derive_keys P mk).1 = P.pbkdf2 mk (utf8Str "encryption_salt") 100000 32 ∧
    (derive_keys P mk).2 = P.pbkdf2 mk (utf8Str "authentication_salt") 100000 32 ∧
    (derive_keys P mk).1.length = 32 ∧
    (derive_keys P mk).2.length = 32 := by
  subst hsame
  exact ⟨rfl, rfl, rfl, hlen .., hlen ..⟩

/-- Witness for C8 on the executable primitives. -/
theorem c8_witness :
    derive_keys toyPrims [9, 9] = derive_keys toyPrims [9, 9] ∧
    (derive_keys toyPrims [9, 9]).1
      = toyPrims.pbkdf2 [9, 9] (utf8Str "encryption_salt") 100000 32 ∧
    (derive_keys toyPrims [9, 9]).2
      = toyPrims.pbkdf2 [9, 9] (utf8Str "authentication_salt") 100000 32 ∧
    (derive_keys toyPrims [9, 9]).1.length = 32 ∧
    (derive_keys toyPrims [9, 9]).2.length = 32 :=
  c8_key_derivation_deterministic toyPrims [9, 9] [9, 9]
    (fun pw salt iterations outLen => by simp [toyPrims]) rfl

/-- C7 (amended): construction fails with the configuration error
exactly when the master-key string's character count differs from 32
(the code checks `len` of the Unicode string, not its UTF-8 byte
length), and the check is enforced once at construction — the
per-field operations depend only on the derived keys and never
re-validate or even consult the master key. -/
theorem c7_master_key_length_check (P : Prims) (master_key : String) :
    ((∃ e, mkEncryptor P master_key = .ok e) ↔ master_key.length = 32) ∧
    (master_key.length ≠ 32 →
      mkEncryptor P master_key = .error .configurationError) ∧
    (∀ e1 e2 : Encryptor, e1.encryption_key = e2.encryption_key →
      e1.auth_key = e2.auth_key →
      (∀ iv ts kv s c,
        encrypt_field P e1 iv ts kv s c = encrypt_field P e2 iv ts kv s c) ∧
      (∀ t, decrypt_field P e1 t = decrypt_field P e2 t)) := by
  refine ⟨⟨?_, ?_⟩, ?_, ?_⟩
  · rintro ⟨e, he⟩
    by_contra hne
    unfold mkEncryptor at he
    rw [if_pos hne] at he
    exact absurd he (by simp)
  · intro h32
    refine ⟨⟨utf8Str master_key, (derive_keys P (utf8Str master_key)).1,
      (derive_keys P (utf8Str master_key)).2⟩, ?_⟩
    unfold mkEncryptor
    rw [if_neg (fun hc => hc h32)]
  · intro hne
    unfold mkEncryptor
    rw [if_pos hne]
  · intro e1 e2 h1 h2
    constructor
    · intro iv ts kv s c
      unfold encrypt_field
      rw [h1, h2]
    · intro t
      unfold decrypt_field decrypt_field_aux dfBody
      simp only [h1, h2]

/-- C7 counterexample: a master secret of exactly 32 UTF-8 bytes
(sixteen two-byte Cyrillic characters) is rejected by the constructor,
refuting "succeeds for every master secret of exactly 32 bytes" as a
statement about bytes. -/
theorem c7_counterexample :
    (utf8Str "фффффффффффффффф").length = 32 ∧
    mkEncryptor toyPrims "фффффффффффффффф" = .error .configurationError := by
  constructor
  · decide
  · rfl

/-- Witness for C7 (amended) on the executable primitives. -/
theorem c7_witness :
    ∃ e, mkEncryptor toyPrims "01234567890123456789012345678901" = .ok e :=
  (c7_master_key_length_check toyPrims _).1.mpr (by decide)

/-- `pyIdx` at the literal index 12. -/
theorem pyIdx_12 (n : Nat) : pyIdx n 12 = min n 12 := by
  unfold pyIdx
  split <;> omega

/-- `pyIdx` at the literal index -32. -/
theorem pyIdx_m32 (n : Nat) : pyIdx n (-32) = n - 32 := by
  unfold pyIdx
  split <;> omega

/-- `pyIdx` at the literal index -48. -/
theorem pyIdx_m48 (n : Nat) : pyIdx n (-48) = n - 48 := by
  unfold pyIdx
  split <;> omega

/-- On a well-formed envelope (12-byte IV, 16-byte tag, 32-byte HMAC),
the fixed-offset slices of `decrypt_field` recover exactly the four
components `encrypt_field` concatenated. -/
theorem dfParts_envelope (iv ct tag h : List Nat)
    (hiv : iv.length = 12) (htag : tag.length = 16) (hh : h.length = 32) :
    dfParts (iv ++ ct ++ tag ++ h) = (iv, ct, tag, h) := by
  have hn : (iv ++ ct ++ tag ++ h).length = 60 + ct.length := by
    simp [hiv, htag, hh]
    omega
  have e1 : pySliceTo (iv ++ ct ++ tag ++ h) 12 = iv := by
    unfold pySliceTo
    rw [pyIdx_12, hn, show min (60 + ct.length) 12 = 12 by omega,
      show iv ++ ct ++ tag ++ h = iv ++ (ct ++ (tag ++ h)) by
        simp [List.append_assoc]]
    exact List.take_left' hiv
  have e2 : pySlice (iv ++ ct ++ tag ++ h) 12 (-48) = ct := by
    unfold pySlice
    rw [pyIdx_12, pyIdx_m48, hn,
      show min (60 + ct.length) 12 = 12 by omega,
      show 60 + ct.length - 48 = 12 + ct.length by omega,
      show iv ++ ct ++ tag ++ h = (iv ++ ct) ++ (tag ++ h) by
        simp [List.append_assoc],
      List.take_left'
        (by simp only [List.length_append, hiv])]
    exact List.drop_left' hiv
  have e3 : pySlice (iv ++ ct ++ tag ++ h) (-48) (-32) = tag := by
    unfold pySlice
    rw [pyIdx_m48, pyIdx_m32, hn,
      show 60 + ct.length - 32 = 12 + ct.length + 16 by omega,
      show 60 + ct.length - 48 = 12 + ct.length by omega,
      List.take_left'
        (by simp only [List.length_append, hiv, htag]),
      List.drop_left'
        (by simp only [List.length_append, hiv])]
  have e4 : pySliceFrom (iv ++ ct ++ tag ++ h) (-32) = h := by
    unfold pySliceFrom
    rw [pyIdx_m32, hn,
      show 60 + ct.length - 32 = 12 + ct.length + 16 by omega]
    exact List.drop_left'
      (by simp only [List.length_append, hiv, htag])
  unfold dfParts
  rw [e1, e2, e3, e4]

/-- C1: for every non-empty string `s` and every category `c`,
`decrypt_field (encrypt_field s c)` returns `(s, c)`, for any 12-byte
IV drawn by the random source and any timestamp / key version stamped
at encrypt time, assuming the contracts of the external primitives
(AES-GCM and JSON round-trips, 16-byte tag, 32-byte HMAC, base64
round-trip) at the values involved. -/
theorem c1_field_roundtrip (P : Prims) (e : Encryptor)
    (iv ct tag : List Nat) (s : String) (c : DataCategory) (ts kv : String)
    (hs : s ≠ "")
    (hiv : iv.length = 12)
    (henc : P.gcmEncrypt e.encryption_key iv
      (P.jsonDumps (create_metadata c ts kv) s) = some (ct, tag))
    (htag : tag.length = 16)
    (hhm : (P.hmacSHA256 e.auth_key (iv ++ ct ++ tag)).length = 32)
    (hne : P.b64encode (combinedOf P e iv ct tag) ≠ "")
    (hb64 : P.b64decode (P.b64encode (combinedOf P e iv ct tag))
      = some (combinedOf P e iv ct tag))
    (hgcm : P.gcmDecrypt e.encryption_key iv ct tag
      = some (P.jsonDumps (create_metadata c ts kv) s))
    (hloads : P.jsonLoads (P.jsonDumps (create_metadata c ts kv) s)
      = some ⟨some (create_metadata c ts kv), some s⟩) :
    encrypt_field P e iv ts kv s c
      = .ok (P.b64encode (combinedOf P e iv ct tag)) ∧
    decrypt_field P e (P.b64encode (combinedOf P e iv ct tag))
      = .ok (s, c) := by
  have hparts : dfParts (combinedOf P e iv ct tag)
      = (iv, ct, tag, P.hmacSHA256 e.auth_key (iv ++ ct ++ tag)) := by
    unfold combinedOf
    exact dfParts_envelope iv ct tag _ hiv htag hhm
  constructor
  · simp [encrypt_field, hs, henc, combinedOf]
  · simp only [decrypt_field, decrypt_field_aux, dfBody, hne, hb64, hparts,
      htag, hgcm, ne_eq, not_true_eq_false, if_false]
    rw [hloads]
    simp [create_metadata, categoryOfString_categoryValue]

/-- Witness for C1 on the executable primitives. -/
theorem c1_witness :
    encrypt_field toyPrims e₀ (List.range 12) "2024" "v0" "hi" DataCategory.FIO
      = .ok (toyPrims.b64encode (combinedOf toyPrims e₀ (List.range 12) ct₁ tag₁)) ∧
    decrypt_field toyPrims e₀
      (toyPrims.b64encode (combinedOf toyPrims e₀ (List.range 12) ct₁ tag₁))
      = .ok ("hi", DataCategory.FIO) :=
  c1_field_roundtrip toyPrims e₀ (List.range 12) ct₁ tag₁ "hi" DataCategory.FIO "2024" "v0"
    (by decide) (by decide) rfl rfl rfl (by decide) (by decide)
    (by decide) (by decide)

/-- C4: the HMAC over `IV || ciphertext || tag` is verified before any
AES-GCM decryption is attempted — on every input whose recomputed HMAC
differs from the stored bytes, `decrypt_field` raises `SecurityError`
and the trace shows the AEAD step was never executed. -/
theorem c4_hmac_before_aead (P : Prims) (e : Encryptor)
    (s : String) (combined : List Nat)
    (hs : s ≠ "")
    (hdec : P.b64decode s = some combined)
    (hmism : P.hmacSHA256 e.auth_key
        ((dfParts combined).1 ++ (dfParts combined).2.1
          ++ (dfParts combined).2.2.1)
      ≠ (dfParts combined).2.2.2) :
    decrypt_field P e s = .error .securityError ∧
    (decrypt_field_aux P e s).2
      = { hmacComputed := true, aeadAttempted := false } := by
  have h : decrypt_field_aux P e s
      = (.error .securityError,
         { hmacComputed := true, aeadAttempted := false }) := by
    simp only [decrypt_field_aux, dfBody, hs, hdec]
    rw [if_pos hmism]
    simp
  exact ⟨by simp [decrypt_field, h], by simp [h]⟩

/-- Witness for C4 on the executable primitives. -/
theorem c4_witness :
    decrypt_field toyPrims e₀ "x" = .error .securityError ∧
    (decrypt_field_aux toyPrims e₀ "x").2
      = { hmacComputed := true, aeadAttempted := false } :=
  c4_hmac_before_aead toyPrims e₀ "x" (strBytes "x")
    (by decide) (by decide) (by decide)

/-- C3 counterexample: `decrypt_field` contains no minimum-length
check.  On a non-empty input decoding to 10 bytes (fewer than 60), the
call does raise `SecurityError`, but the trace shows the HMAC
recomputation over the clamped slices was performed — refuting
"without performing any HMAC computation". -/
theorem c3_counterexample :
    toyPrims.b64decode (strOfBytes (List.replicate 10 5))
      = some (List.replicate 10 5) ∧
    (List.replicate 10 5).length < 60 ∧
    strOfBytes (List.replicate 10 5) ≠ "" ∧
    decrypt_field toyPrims e₀ (strOfBytes (List.replicate 10 5))
      = .error .securityError ∧
    (decrypt_field_aux toyPrims e₀ (strOfBytes (List.replicate 10 5))).2.hmacComputed
      = true := by
  refine ⟨by decide, by decide, by decide, ?_, by decide⟩
  rfl

/-- C3 (amended): any non-empty input whose base64 decoding is shorter
than 60 bytes makes `decrypt_field` raise an error (`SecurityError`
when the HMAC comparison fails, `DecryptionError` on the short-tag /
empty-ciphertext paths) and never return a value — but there is no
explicit length check, and the HMAC computation over the clamped
slices is always performed first. -/
theorem c3_short_input_rejected (P : Prims) (e : Encryptor)
    (s : String) (bs : List Nat)
    (hdec : P.b64decode s = some bs)
    (hlen : bs.length < 60)
    (hs : s ≠ "")
    (hctlen : ∀ k iv ct tag pt,
      P.gcmDecrypt k iv ct tag = some pt → pt.length = ct.length)
    (hloadnil : P.jsonLoads [] = Option.none) :
    (∃ err, decrypt_field P e s = .error err) ∧
    (decrypt_field_aux P e s).2.hmacComputed = true := by
  have haux : decrypt_field_aux P e s = dfBody P e bs := by
    simp [decrypt_field_aux, hs, hdec]
  have hencnil : (dfParts bs).2.1 = [] := by
    simp only [dfParts, pySlice, pyIdx_m48, pyIdx_12]
    rw [List.drop_eq_nil_iff]
    simp only [List.length_take]
    omega
  suffices h : (∃ err, (dfBody P e bs).1 = .error err) ∧
      (dfBody P e bs).2.hmacComputed = true by
    exact ⟨by simpa [decrypt_field, haux] using h.1, by simpa [haux] using h.2⟩
  simp only [dfBody]
  by_cases hm : P.hmacSHA256 e.auth_key
      ((dfParts bs).1 ++ (dfParts bs).2.1 ++ (dfParts bs).2.2.1)
    = (dfParts bs).2.2.2
  · rw [if_neg (not_not_intro hm)]
    by_cases ht : (dfParts bs).2.2.1.length < 16
    · rw [if_pos ht]
      exact ⟨⟨.decryptionError, rfl⟩, by simp⟩
    · rw [if_neg ht]
      rw [hencnil]
      cases hg : P.gcmDecrypt e.encryption_key (dfParts bs).1 []
          (dfParts bs).2.2.1 with
      | none => exact ⟨⟨.securityError, rfl⟩, by simp⟩
      | some pt =>
        have hpt : pt = [] := by
          have := hctlen _ _ _ _ _ hg
          simpa [List.length_eq_zero] using this
        subst hpt
        simp only [hloadnil]
        exact ⟨⟨.decryptionError, rfl⟩, by simp⟩
  · rw [if_pos hm]
    exact ⟨⟨.securityError, rfl⟩, by simp⟩

/-- Witness for C3 (amended) on the executable primitives. -/
theorem c3_witness :
    (∃ err, decrypt_field toyPrims e₀ (strOfBytes (List.replicate 9 4))
      = .error err) ∧
    (decrypt_field_aux toyPrims e₀ (strOfBytes (List.replicate 9 4))).2.hmacComputed
      = true :=
  c3_short_input_rejected toyPrims e₀ (strOfBytes (List.replicate 9 4))
    (List.replicate 9 4) (by decide) (by decide) (by decide)
    (fun k iv ct tag pt hg => by
      simp only [toyPrims] at hg
      split at hg
      · simpa using congrArg List.length (Option.some.inj hg).symm
      · exact absurd hg (by simp))
    rfl

/-- For any decoded input of at least 60 bytes, the HMAC message
`iv ++ encrypted_data ++ auth_tag` recomputed by `decrypt_field` is
exactly the first `length - 32` bytes, and the stored digest the last
32 bytes. -/
theorem dfParts_msg (l : List Nat) (hl : 60 ≤ l.length) :
    (dfParts l).1 ++ (dfParts l).2.1 ++ (dfParts l).2.2.1
      = l.take (l.length - 32) ∧
    (dfParts l).2.2.2 = l.drop (l.length - 32) := by
  constructor
  · simp only [dfParts, pySliceTo, pySlice, pyIdx_12, pyIdx_m32, pyIdx_m48]
    rw [show min l.length 12 = 12 by omega]
    rw [show List.take 12 l = List.take 12 (List.take (l.length - 48) l) by
      rw [List.take_take]
      congr 1
      omega]
    rw [List.take_append_drop]
    rw [show List.take (l.length - 48) l
        = List.take (l.length - 48) (List.take (l.length - 32) l) by
      rw [List.take_take]
      congr 1
      omega]
    rw [List.take_append_drop]
  · simp only [dfParts, pySliceFrom, pyIdx_m32]

/-- Setting index `i` of a list shifts its sum by the difference of the
new and old entries. -/
theorem sum_set_add (m : List Nat) (i b : Nat) (h : i < m.length) :
    (m.set i b).sum + m.getD i 0 = m.sum + b := by
  induction m generalizing i with
  | nil => simp at h
  | cons a t ih =>
    cases i with
    | zero =>
      simp
      omega
    | succ j =>
      have hj : j < t.length := by simpa using h
      have h2 := ih j hj
      simp only [List.set_cons_succ, List.sum_cons, List.getD_cons_succ]
      omega

/-- The executable MAC detects every single-entry modification. -/
theorem toyMac_flip (k m : List Nat) (j b' : Nat) (hj : j < m.length)
    (hb : b' ≠ m.getD j 0) :
    toyMac k (m.set j b') ≠ toyMac k m := by
  intro heq
  have h1 : k.sum + (m.set j b').sum = k.sum + m.sum := by
    simpa [toyMac] using congrArg (fun l => l.headD 0) heq
  have h2 := sum_set_add m j b' hj
  exact hb (by omega)

/-- C2: flipping any single byte of the decoded envelope bytes
produced by `encrypt_field` (re-encoded before the call) makes
`decrypt_field` fail with `SecurityError` and never return a value —
the AEAD step is not even attempted.  The MAC idealisation (hypothesis
`hflip`: a single-byte modification changes the digest) is what
"tamper detection" means cryptographically. -/
theorem c2_single_byte_flip_detected (P : Prims) (e : Encryptor)
    (iv ct tag : List Nat) (s : String) (c : DataCategory) (ts kv : String)
    (i b : Nat)
    (hiv : iv.length = 12)
    (_henc : P.gcmEncrypt e.encryption_key iv
      (P.jsonDumps (create_metadata c ts kv) s) = some (ct, tag))
    (htag : tag.length = 16)
    (hhm : (P.hmacSHA256 e.auth_key (iv ++ ct ++ tag)).length = 32)
    (hi : i < (combinedOf P e iv ct tag).length)
    (hb : b ≠ (combinedOf P e iv ct tag).getD i 0)
    (hflip : ∀ m j b', j < m.length → b' ≠ m.getD j 0 →
      P.hmacSHA256 e.auth_key (m.set j b') ≠ P.hmacSHA256 e.auth_key m)
    (hne : P.b64encode ((combinedOf P e iv ct tag).set i b) ≠ "")
    (hb64 : P.b64decode (P.b64encode ((combinedOf P e iv ct tag).set i b))
      = some ((combinedOf P e iv ct tag).set i b)) :
    decrypt_field P e (P.b64encode ((combinedOf P e iv ct tag).set i b))
      = .error .securityError ∧
    (decrypt_field_aux P e
        (P.b64encode ((combinedOf P e iv ct tag).set i b))).2
      = { hmacComputed := true, aeadAttempted := false } := by
  have hlen3 : (iv ++ ct ++ tag).length = 28 + ct.length := by
    simp only [List.length_append, hiv, htag]
    omega
  have hC : (combinedOf P e iv ct tag).length = 60 + ct.length := by
    simp only [combinedOf, List.length_append, hiv, htag, hhm]
    omega
  have hC' : ((combinedOf P e iv ct tag).set i b).length = 60 + ct.length := by
    simp [List.length_set, hC]
  have htake : (combinedOf P e iv ct tag).take (28 + ct.length)
      = iv ++ ct ++ tag := by
    unfold combinedOf
    rw [show 28 + ct.length = (iv ++ ct ++ tag).length by rw [hlen3]]
    exact List.take_left ..
  have hdrop : (combinedOf P e iv ct tag).drop (28 + ct.length)
      = P.hmacSHA256 e.auth_key (iv ++ ct ++ tag) := by
    unfold combinedOf
    rw [show 28 + ct.length = (iv ++ ct ++ tag).length by rw [hlen3]]
    exact List.drop_left ..
  have hmsg := dfParts_msg ((combinedOf P e iv ct tag).set i b)
    (by rw [hC']; omega)
  rw [hC', show 60 + ct.length - 32 = 28 + ct.length from by omega] at hmsg
  have hmism : P.hmacSHA256 e.auth_key
      ((dfParts ((combinedOf P e iv ct tag).set i b)).1
        ++ (dfParts ((combinedOf P e iv ct tag).set i b)).2.1
        ++ (dfParts ((combinedOf P e iv ct tag).set i b)).2.2.1)
      ≠ (dfParts ((combinedOf P e iv ct tag).set i b)).2.2.2 := by
    rw [hmsg.1, hmsg.2]
    by_cases hcase : i < 28 + ct.length
    · rw [List.set_take, List.drop_set_of_lt _ _ hcase, htake, hdrop]
      refine hflip (iv ++ ct ++ tag) i b (by rw [hlen3]; omega) ?_
      have hgd : (combinedOf P e iv ct tag).getD i 0
          = (iv ++ ct ++ tag).getD i 0 := by
        unfold combinedOf
        simp only [List.getD_eq_getElem?_getD]
        rw [List.getElem?_append_left (by rw [hlen3]; omega)]
      rw [← hgd]
      exact hb
    · push_neg at hcase
      rw [List.set_take,
        List.set_eq_of_length_le (by simp [List.length_take, hC]; omega),
        htake, List.drop_set, if_neg (by omega), hdrop]
      intro heq
      have hj : i - (28 + ct.length)
          < (P.hmacSHA256 e.auth_key (iv ++ ct ++ tag)).length := by
        rw [hhm]
        omega
      have hgd2 : (combinedOf P e iv ct tag).getD i 0
          = (P.hmacSHA256 e.auth_key (iv ++ ct ++ tag)).getD
              (i - (28 + ct.length)) 0 := by
        unfold combinedOf
        simp only [List.getD_eq_getElem?_getD]
        rw [List.getElem?_append_right (by rw [hlen3]; omega), hlen3]
      have hgd3 := congrArg (fun l => l.getD (i - (28 + ct.length)) 0) heq
      simp only [List.getD_eq_getElem?_getD] at hgd3
      rw [List.getElem?_set_self hj] at hgd3
      apply hb
      rw [hgd2]
      simp only [List.getD_eq_getElem?_getD]
      rw [hgd3]
      simp
  have haux : decrypt_field_aux P e
      (P.b64encode ((combinedOf P e iv ct tag).set i b))
      = dfBody P e ((combinedOf P e iv ct tag).set i b) := by
    simp [decrypt_field_aux, hne, hb64]
  have hres : dfBody P e ((combinedOf P e iv ct tag).set i b)
      = (.error .securityError, ⟨true, false⟩) := by
    simp only [dfBody]
    rw [if_pos hmism]
  exact ⟨by simp [decrypt_field, haux, hres], by simp [haux, hres]⟩

/-- Witness for C2 on the executable primitives: flipping byte 0 of a
concrete envelope is detected. -/
theorem c2_witness :
    decrypt_field toyPrims e₀
      (toyPrims.b64encode
        ((combinedOf toyPrims e₀ (List.range 12) ct₁ tag₁).set 0 99))
      = .error .securityError ∧
    (decrypt_field_aux toyPrims e₀
      (toyPrims.b64encode
        ((combinedOf toyPrims e₀ (List.range 12) ct₁ tag₁).set 0 99))).2
      = { hmacComputed := true, aeadAttempted := false } :=
  c2_single_byte_flip_detected toyPrims e₀ (List.range 12) ct₁ tag₁
    "hi" DataCategory.FIO "2024" "v0" 0 99
    (by decide) rfl rfl rfl (by decide) (by decide)
    (fun m j b' hj hb => toyMac_flip e₀.auth_key m j b' hj hb)
    (by decide) (by decide)

/-- `auto_decrypt_user_data` acts pointwise: looking up any key in its
output applies the per-field transform to the lookup in the input. -/
theorem lookup_auto_decrypt (P : Prims) (e : Encryptor)
    (d : List (String × PyVal)) (k : String) :
    List.lookup k (auto_decrypt_user_data P e d)
      = (List.lookup k d).map (fun v => decryptValueOf P e k v) := by
  induction d with
  | nil => rfl
  | cons hd tl ih =>
    obtain ⟨a, v⟩ := hd
    show List.lookup k
        ((a, decryptValueOf P e a v) :: auto_decrypt_user_data P e tl)
      = (List.lookup k ((a, v) :: tl)).map (fun v => decryptValueOf P e k v)
    rw [List.lookup_cons, List.lookup_cons]
    cases hka : (k == a) with
    | false => exact ih
    | true =>
      have hk : k = a := eq_of_beq hka
      subst hk
      rfl

/-- Looking up the key just written by a Python dict assignment. -/
theorem lookup_dictSet_self (l : List (String × PyVal)) (k : String)
    (v : PyVal) :
    List.lookup k (dictSet l k v) = some v := by
  induction l with
  | nil => simp [dictSet]
  | cons hd tl ih =>
    obtain ⟨a, w⟩ := hd
    unfold dictSet
    by_cases h : a = k
    · rw [if_pos h]
      simp
    · rw [if_neg h, List.lookup_cons,
        show (k == a) = false from beq_eq_false_iff_ne.mpr
          (fun hk => h hk.symm)]
      exact ih

/-- A Python dict assignment leaves every other key's lookup
unchanged. -/
theorem lookup_dictSet_ne (l : List (String × PyVal)) (k k' : String)
    (v : PyVal) (h : k' ≠ k) :
    List.lookup k' (dictSet l k v) = List.lookup k' l := by
  induction l with
  | nil =>
    unfold dictSet
    rw [List.lookup_cons,
      show (k' == k) = false from beq_eq_false_iff_ne.mpr h]
  | cons hd tl ih =>
    obtain ⟨a, w⟩ := hd
    unfold dictSet
    by_cases ha : a = k
    · rw [if_pos ha, List.lookup_cons, List.lookup_cons,
        show (k' == k) = false from beq_eq_false_iff_ne.mpr h,
        show (k' == a) = false from beq_eq_false_iff_ne.mpr
          (fun hk => h (hk.trans ha))]
    · rw [if_neg ha, List.lookup_cons, List.lookup_cons]
      cases hka : (k' == a) with
      | false => exact ih
      | true => rfl

/-- The encryption loop of `auto_encrypt_user_data` propagates an
`EncryptionError` raised for any sensitive truthy field. -/
theorem autoEncLoop_fails (P : Prims) (e : Encryptor) (ivs : Nat → List Nat)
    (ts kv : String) (f : String) (v : PyVal)
    (hfS : f ∈ ENCRYPTED_FIELDS) (hv : pyTruthy v)
    (hfail : ∀ iv, encrypt_field P e iv ts kv (pyStr v)
      (map_field_to_category f) = .error .encryptionError) :
    ∀ (d : List (String × PyVal)), (f, v) ∈ d →
      ∀ (k : Nat), autoEncLoop P e ivs ts kv d k = .error .encryptionError := by
  intro d
  induction d with
  | nil => intro h; cases h
  | cons hd tl ih =>
    intro hmem k
    obtain ⟨a, w⟩ := hd
    rcases List.mem_cons.mp hmem with heq | hmemtl
    · cases heq
      unfold autoEncLoop
      rw [if_pos ⟨hfS, hv⟩, hfail (ivs k)]
    · unfold autoEncLoop
      by_cases hcond : a ∈ ENCRYPTED_FIELDS ∧ pyTruthy w
      · rw [if_pos hcond]
        cases henc2 : encrypt_field P e (ivs k) ts kv (pyStr w)
            (map_field_to_category a) with
        | error err =>
          cases err
          rfl
        | ok env =>
          rw [ih hmemtl (k + 1)]
      · rw [if_neg hcond, ih hmemtl k]

/-- C5: record encryption is all-or-nothing — if `encrypt_field`
raises `EncryptionError` for a sensitive truthy field of the record,
`auto_encrypt_user_data` propagates that error and returns no record
at all. -/
theorem c5_encrypt_all_or_nothing (P : Prims) (e : Encryptor)
    (ivs : Nat → List Nat) (ts kv : String)
    (d : List (String × PyVal)) (f : String) (v : PyVal)
    (hmem : (f, v) ∈ d) (hfS : f ∈ ENCRYPTED_FIELDS) (hv : pyTruthy v)
    (hfail : ∀ iv, encrypt_field P e iv ts kv (pyStr v)
      (map_field_to_category f) = .error .encryptionError) :
    auto_encrypt_user_data P e ivs ts kv d = .error .encryptionError := by
  unfold auto_encrypt_user_data
  rw [autoEncLoop_fails P e ivs ts kv f v hfS hv hfail d hmem 0]

/-- Witness for C5: with a primitives instance whose cipher always
fails, encrypting a record with one sensitive field yields no record. -/
theorem c5_witness :
    auto_encrypt_user_data failPrims e₀ ivs₀ "t" "v" [("fio", .str "x")]
      = .error .encryptionError :=
  c5_encrypt_all_or_nothing failPrims e₀ ivs₀ "t" "v" [("fio", .str "x")]
    "fio" (.str "x") (by simp) (by decide) (by decide) (fun iv => rfl)

/-- C6: record decryption is field-isolated — when one sensitive
field's envelope makes `decrypt_field` raise, `auto_decrypt_user_data`
still returns a record: the failing field carries the sentinel
`"[DECRYPTION_ERROR]"`, every other sensitive field decrypts to its
correct value, and every non-sensitive field passes through
unchanged. -/
theorem c6_decrypt_field_isolated (P : Prims) (e : Encryptor)
    (d : List (String × PyVal)) (f : String) (v : String) (err : DecErr)
    (hf : List.lookup f d = some (.str v))
    (hfS : f ∈ ENCRYPTED_FIELDS)
    (hv : v ≠ "")
    (herr : decrypt_field P e v = .error err) :
    List.lookup f (auto_decrypt_user_data P e d)
      = some (.str "[DECRYPTION_ERROR]") ∧
    (∀ g w, g ≠ f → List.lookup g d = some w →
      List.lookup g (auto_decrypt_user_data P e d)
        = some (decryptValueOf P e g w)) ∧
    (∀ g w s' cat, g ≠ f → List.lookup g d = some (.str w) →
      g ∈ ENCRYPTED_FIELDS → w ≠ "" →
      decrypt_field P e w = .ok (s', cat) →
      List.lookup g (auto_decrypt_user_data P e d) = some (.str s')) ∧
    (∀ g w, g ∉ ENCRYPTED_FIELDS → List.lookup g d = some w →
      List.lookup g (auto_decrypt_user_data P e d) = some w) := by
  refine ⟨?_, ?_, ?_, ?_⟩
  · rw [lookup_auto_decrypt, hf]
    simp [decryptValueOf, hfS, hv, herr]
  · intro g w hg hw
    rw [lookup_auto_decrypt, hw]
    rfl
  · intro g w s' cat hg hw hgS hw' hdec2
    rw [lookup_auto_decrypt, hw]
    simp [decryptValueOf, hgS, hw', hdec2]
  · intro g w hg hw
    rw [lookup_auto_decrypt, hw]
    cases w <;> simp [decryptValueOf, hg]

/-- Witness for C6 on the executable primitives. -/
theorem c6_witness :
    List.lookup "fio" (auto_decrypt_user_data toyPrims e₀
        [("fio", .str "x"), ("age", .int 5)])
      = some (.str "[DECRYPTION_ERROR]") ∧
    (∀ g w, g ≠ "fio" →
      List.lookup g [("fio", PyVal.str "x"), ("age", PyVal.int 5)] = some w →
      List.lookup g (auto_decrypt_user_data toyPrims e₀
        [("fio", .str "x"), ("age", .int 5)])
        = some (decryptValueOf toyPrims e₀ g w)) ∧
    (∀ g w s' cat, g ≠ "fio" →
      List.lookup g [("fio", PyVal.str "x"), ("age", PyVal.int 5)]
        = some (.str w) →
      g ∈ ENCRYPTED_FIELDS → w ≠ "" →
      decrypt_field toyPrims e₀ w = .ok (s', cat) →
      List.lookup g (auto_decrypt_user_data toyPrims e₀
        [("fio", .str "x"), ("age", .int 5)]) = some (.str s')) ∧
    (∀ g w, g ∉ ENCRYPTED_FIELDS →
      List.lookup g [("fio", PyVal.str "x"), ("age", PyVal.int 5)] = some w →
      List.lookup g (auto_decrypt_user_data toyPrims e₀
        [("fio", .str "x"), ("age", .int 5)]) = some w) :=
  c6_decrypt_field_isolated toyPrims e₀
    [("fio", .str "x"), ("age", .int 5)] "fio" "x" .securityError
    (by decide) (by decide) (by decide) rfl

/-- C10: the reserved stamps `_encrypted`, `_encryption_version` and
`_encrypted_at` added by `auto_encrypt_user_data` are not in the
sensitive-field set, so `auto_decrypt_user_data` copies them — and
every other non-sensitive key — into its output unchanged: decrypting
an encrypted record always yields the three stamps. -/
theorem c10_stamps_preserved (P : Prims) (e : Encryptor)
    (ivs : Nat → List Nat) (ts kv : String)
    (r enc : List (String × PyVal))
    (henc : auto_encrypt_user_data P e ivs ts kv r = .ok enc) :
    List.lookup "_encrypted" (auto_decrypt_user_data P e enc)
      = some (.bool true) ∧
    List.lookup "_encryption_version" (auto_decrypt_user_data P e enc)
      = some (.str kv) ∧
    List.lookup "_encrypted_at" (auto_decrypt_user_data P e enc)
      = some (.str ts) ∧
    (∀ k d, k ∉ ENCRYPTED_FIELDS →
      List.lookup k (auto_decrypt_user_data P e d) = List.lookup k d) := by
  have hpass : ∀ k d, k ∉ ENCRYPTED_FIELDS →
      List.lookup k (auto_decrypt_user_data P e d) = List.lookup k d := by
    intro k d hk
    rw [lookup_auto_decrypt]
    have hval : ∀ v, decryptValueOf P e k v = v := by
      intro v
      cases v <;> simp [decryptValueOf, hk]
    cases List.lookup k d <;> simp [hval]
  obtain ⟨body, hbody, henc2⟩ : ∃ body,
      autoEncLoop P e ivs ts kv r 0 = .ok body ∧
      enc = dictSet (dictSet (dictSet body "_encrypted" (.bool true))
        "_encryption_version" (.str kv)) "_encrypted_at" (.str ts) := by
    unfold auto_encrypt_user_data at henc
    cases hloop : autoEncLoop P e ivs ts kv r 0 with
    | error err =>
      rw [hloop] at henc
      cases henc
    | ok body =>
      rw [hloop] at henc
      exact ⟨body, rfl, (Except.ok.inj henc).symm⟩
  subst henc2
  refine ⟨?_, ?_, ?_, hpass⟩
  · rw [hpass _ _ (by decide),
      lookup_dictSet_ne _ _ _ _ (by decide),
      lookup_dictSet_ne _ _ _ _ (by decide),
      lookup_dictSet_self]
  · rw [hpass _ _ (by decide),
      lookup_dictSet_ne _ _ _ _ (by decide),
      lookup_dictSet_self]
  · rw [hpass _ _ (by decide),
      lookup_dictSet_self]

/-- Witness for C10 on the executable primitives: a record without the
reserved keys gains all three stamps, and they survive decryption. -/
theorem c10_witness :
    List.lookup "_encrypted" (auto_decrypt_user_data toyPrims e₀
        [("age", .int 5), ("_encrypted", .bool true),
         ("_encryption_version", .str "v"), ("_encrypted_at", .str "t")])
      = some (.bool true) ∧
    List.lookup "_encryption_version" (auto_decrypt_user_data toyPrims e₀
        [("age", .int 5), ("_encrypted", .bool true),
         ("_encryption_version", .str "v"), ("_encrypted_at", .str "t")])
      = some (.str "v") ∧
    List.lookup "_encrypted_at" (auto_decrypt_user_data toyPrims e₀
        [("age", .int 5), ("_encrypted", .bool true),
         ("_encryption_version", .str "v"), ("_encrypted_at", .str "t")])
      = some (.str "t") ∧
    (∀ k d, k ∉ ENCRYPTED_FIELDS →
      List.lookup k (auto_decrypt_user_data toyPrims e₀ d)
        = List.lookup k d) :=
  c10_stamps_preserved toyPrims e₀ ivs₀ "t" "v" [("age", .int 5)]
    [("age", .int 5), ("_encrypted", .bool true),
     ("_encryption_version", .str "v"), ("_encrypted_at", .str "t")]
    rfl
